import Mathlib

/-!
Verification of the search collection model (facet / result / sorting
configuration documents, query parameter builders, facet label and uuid
resolution, and Solr response normalization).

The Python code operates on JSON-decoded dynamic values.  We embed those
values as the inductive type JsonVal, Python dictionaries as association
lists with unique keys in insertion order, and fallible operations
(KeyError, TypeError) as Except computations.
-/

/-- A JSON-decoded Python value: None, bool, int, str, list or dict.
Dictionaries produced by JSON decoding have string keys kept in a fixed
iteration order, modelled as an association list. -/
inductive JsonVal where
  | null : JsonVal
  | bool (b : Bool) : JsonVal
  | num (n : Int) : JsonVal
  | str (s : String) : JsonVal
  | arr (xs : List JsonVal) : JsonVal
  | obj (kvs : List (String × JsonVal)) : JsonVal

/-- Python errors raised by the modelled code paths. -/
inductive PyErr where
  | keyError (k : String) : PyErr
  | typeError : PyErr
  | indexError : PyErr
deriving DecidableEq, Repr

/-- Dictionary lookup: value of the first (hence only) pair with the given
key, or none when the key is absent. -/
def dictGet {α : Type} : List (String × α) → String → Option α
  | [], _ => none
  | (k2, v) :: rest, k => if k2 = k then some v else dictGet rest k

/-- Whether a dictionary contains the given key. -/
def containsKey {α : Type} : List (String × α) → String → Bool
  | [], _ => false
  | (k2, _) :: rest, k => k2 = k || containsKey rest k

/-- Replace the value at every pair holding the given key (a dictionary has
at most one such pair), keeping its position. -/
def replaceKey {α : Type} : List (String × α) → String → α → List (String × α)
  | [], _, _ => []
  | (k2, v2) :: rest, k, v =>
    if k2 = k then (k, v) :: replaceKey rest k v else (k2, v2) :: replaceKey rest k v

/-- Python dictionary assignment d[k] = v: replace in place when the key is
present, otherwise append the pair at the end. -/
def dictSet {α : Type} (d : List (String × α)) (k : String) (v : α) : List (String × α) :=
  if containsKey d k then replaceKey d k v else d ++ [(k, v)]

/-- Python d.get(k, dflt). -/
def dictGetD {α : Type} (d : List (String × α)) (k : String) (dflt : α) : α :=
  (dictGet d k).getD dflt

/-- Python d.get(k) on a JSON dictionary: absent keys give None. -/
def pyGet (d : List (String × JsonVal)) (k : String) : JsonVal :=
  (dictGet d k).getD .null

/-- Python d[k] on a JSON dictionary: absent keys raise KeyError. -/
def pySub (d : List (String × JsonVal)) (k : String) : Except PyErr JsonVal :=
  match dictGet d k with
  | some v => .ok v
  | none => .error (.keyError k)

/-- Python truthiness of a JSON value. -/
def JsonVal.truthy : JsonVal → Bool
  | .null => false
  | .bool b => b
  | .num n => n != 0
  | .str s => !s.isEmpty
  | .arr xs => !xs.isEmpty
  | .obj kvs => !kvs.isEmpty

mutual

/-- Structural equality of JSON values, as Python == compares the
corresponding decoded values. -/
def JsonVal.beq : JsonVal → JsonVal → Bool
  | .null, .null => true
  | .bool a, .bool b => a = b
  | .num a, .num b => a = b
  | .str a, .str b => a = b
  | .arr a, .arr b => JsonVal.beqArr a b
  | .obj a, .obj b => JsonVal.beqObj a b
  | _, _ => false

/-- Elementwise equality of JSON lists. -/
def JsonVal.beqArr : List JsonVal → List JsonVal → Bool
  | [], [] => true
  | x :: xs, y :: ys => JsonVal.beq x y && JsonVal.beqArr xs ys
  | _, _ => false

/-- Pairwise equality of JSON dictionaries in insertion order. -/
def JsonVal.beqObj : List (String × JsonVal) → List (String × JsonVal) → Bool
  | [], [] => true
  | (k1, v1) :: xs, (k2, v2) :: ys => k1 = k2 && JsonVal.beq v1 v2 && JsonVal.beqObj xs ys
  | _, _ => false

end

/-- Python v == s for a string literal s: true exactly when v is that
string. -/
def JsonVal.eqStr : JsonVal → String → Bool
  | .str s2, s => s2 = s
  | _, _ => false

mutual

/-- Python repr of a JSON-decoded value. -/
def JsonVal.pyRepr : JsonVal → String
  | .null => "None"
  | .bool true => "True"
  | .bool false => "False"
  | .num n => toString n
  | .str s => "'" ++ s ++ "'"
  | .arr xs => "[" ++ JsonVal.pyReprArr xs ++ "]"
  | .obj kvs => "\x7b" ++ JsonVal.pyReprObj kvs ++ "\x7d"

/-- Comma-joined reprs of list elements. -/
def JsonVal.pyReprArr : List JsonVal → String
  | [] => ""
  | [x] => JsonVal.pyRepr x
  | x :: xs => JsonVal.pyRepr x ++ ", " ++ JsonVal.pyReprArr xs

/-- Comma-joined reprs of dictionary items. -/
def JsonVal.pyReprObj : List (String × JsonVal) → String
  | [] => ""
  | [(k, v)] => "'" ++ k ++ "': " ++ JsonVal.pyRepr v
  | (k, v) :: kvs => "'" ++ k ++ "': " ++ JsonVal.pyRepr v ++ ", " ++ JsonVal.pyReprObj kvs

end

/-- Python str of a JSON-decoded value, as used by percent-s formatting. -/
def JsonVal.pyStr : JsonVal → String
  | .str s => s
  | v => v.pyRepr

/-- Whether a value may be used as a Python dictionary key (lists and
dictionaries are unhashable). -/
def JsonVal.hashable : JsonVal → Bool
  | .arr _ => false
  | .obj _ => false
  | _ => true

/-- Python subscript v[k]: dictionary lookup for string keys (KeyError when
missing), list indexing for integer keys, TypeError otherwise. -/
def pySubscript : JsonVal → JsonVal → Except PyErr JsonVal
  | .obj kvs, .str s =>
    match dictGet kvs s with
    | some v => .ok v
    | none => .error (.keyError s)
  | .obj _, .arr _ => .error .typeError
  | .obj _, .obj _ => .error .typeError
  | .obj _, k => .error (.keyError k.pyStr)
  | .arr xs, .num i =>
    if h : 0 ≤ i ∧ i.toNat < xs.length then .ok (xs.get ⟨i.toNat, h.2⟩) else .error .indexError
  | .arr _, _ => .error .typeError
  | _, _ => .error .typeError

/-- Python iteration over a value: lists yield their elements, strings
their characters, dictionaries their keys; other values raise TypeError. -/
def pyIter : JsonVal → Except PyErr (List JsonVal)
  | .arr xs => .ok xs
  | .str s => .ok (s.toList.map (fun c => .str (String.singleton c)))
  | .obj kvs => .ok (kvs.map (fun p => .str p.1))
  | _ => .error .typeError

/-- Python d.iteritems(): the key-value pairs of a dictionary; any other
value raises (no such attribute). -/
def pyItems : JsonVal → Except PyErr (List (String × JsonVal))
  | .obj kvs => .ok kvs
  | _ => .error .typeError

/-- Treat a value as a dictionary for attribute access such as v.get;
non-dictionaries raise (AttributeError, modelled as TypeError). -/
def asObj : JsonVal → Except PyErr (List (String × JsonVal))
  | .obj kvs => .ok kvs
  | _ => .error .typeError

/-!
Partial merge updates.  update_from_post loads the stored JSON document,
overwrites each recognized attribute for which the posted mapping holds a
value that is not None (the value is itself parsed as JSON), and stores
the document back.  We model the stored document and the parsed posted
values directly as structured values; a posted entry of none stands for
a posted None.
-/

/-- One attribute step of update_from_post: overwrite the attribute when
the posted mapping holds a non-null value for it, else keep the document
unchanged. -/
def postStep {α : Type} (post : List (String × Option α)) (d : List (String × α))
    (attr : String) : List (String × α) :=
  match dictGet post attr with
  | some (some v) => dictSet d attr v
  | _ => d

/-- update_from_post over a fixed attribute list: fold the per-attribute
overwrite step over the recognized attribute names in order. -/
def updateFromPostAttrs {α : Type} (attrs : List String) (d : List (String × α))
    (post : List (String × Option α)) : List (String × α) :=
  attrs.foldl (postStep post) d

/-- The recognized attribute names of a facet configuration document. -/
def Facet.ATTRIBUTES : List String := ["properties", "fields", "ranges", "dates", "order"]

/-- Facet.update_from_post from the source. -/
def Facet.update_from_post {α : Type} (d : List (String × α))
    (post : List (String × Option α)) : List (String × α) :=
  updateFromPostAttrs Facet.ATTRIBUTES d post

/-- The recognized attribute names of a result configuration document. -/
def Result.ATTRIBUTES : List String := ["properties", "template", "highlighting", "extracode"]

/-- Result.update_from_post from the source. -/
def Result.update_from_post {α : Type} (d : List (String × α))
    (post : List (String × Option α)) : List (String × α) :=
  updateFromPostAttrs Result.ATTRIBUTES d post

/-- The recognized attribute names of a sorting configuration document. -/
def Sorting.ATTRIBUTES : List String := ["properties", "fields"]

/-- Sorting.update_from_post from the source. -/
def Sorting.update_from_post {α : Type} (d : List (String × α))
    (post : List (String × Option α)) : List (String × α) :=
  updateFromPostAttrs Sorting.ATTRIBUTES d post

/-!
Query parameter builders.  The Python builders return tuples of
(name, value) pairs where the value is whatever was read from the
configuration (so it may be any JSON value, or None from a .get miss);
names are plain strings built by percent formatting.
-/

/-- The facet.field parameters of Facet.get_query_params: one per entry of
the fields list, each reading the field key of its entry. -/
def getFieldParams : List JsonVal → Except PyErr (List (String × JsonVal))
  | [] => .ok []
  | ff :: rest => do
    let o ← asObj ff
    let f ← pySub o "field"
    let tail ← getFieldParams rest
    .ok (("facet.field", f) :: tail)

/-- The range facet parameters of Facet.get_query_params: for each entry,
facet.range plus the three per-field range boundary parameters. -/
def getRangeParams : List JsonVal → Except PyErr (List (String × JsonVal))
  | [] => .ok []
  | ff :: rest => do
    let o ← asObj ff
    let f ← pySub o "field"
    let s ← pySub o "start"
    let e ← pySub o "end"
    let g ← pySub o "gap"
    let tail ← getRangeParams rest
    .ok ([("facet.range", f),
          ("f." ++ f.pyStr ++ ".facet.range.start", s),
          ("f." ++ f.pyStr ++ ".facet.range.end", e),
          ("f." ++ f.pyStr ++ ".facet.range.gap", g)] ++ tail)

/-- The date facet parameters of Facet.get_query_params: for each entry,
facet.date plus the three per-field date-math parameters.  The start
boundary is rendered NOW-(start.frequency)(start.unit)/(gap.unit), the end
boundary NOW-(end.frequency)(end.unit), and the gap +(gap.frequency)(gap.unit);
component lookups happen in the same order as in the source. -/
def getDateParams : List JsonVal → Except PyErr (List (String × JsonVal))
  | [] => .ok []
  | ff :: rest => do
    let o ← asObj ff
    let s ← pySub o "start"
    let e ← pySub o "end"
    let g ← pySub o "gap"
    let f ← pySub o "field"
    let sf ← pySubscript s (.str "frequency")
    let su ← pySubscript s (.str "unit")
    let ru ← pySubscript g (.str "unit")
    let ef ← pySubscript e (.str "frequency")
    let eu ← pySubscript e (.str "unit")
    let gf ← pySubscript g (.str "frequency")
    let gu ← pySubscript g (.str "unit")
    let tail ← getDateParams rest
    .ok ([("facet.date", f),
          ("f." ++ f.pyStr ++ ".facet.date.start",
            .str ("NOW-" ++ sf.pyStr ++ su.pyStr ++ "/" ++ ru.pyStr)),
          ("f." ++ f.pyStr ++ ".facet.date.end",
            .str ("NOW-" ++ ef.pyStr ++ eu.pyStr)),
          ("f." ++ f.pyStr ++ ".facet.date.gap",
            .str ("+" ++ gf.pyStr ++ gu.pyStr))] ++ tail)

/-- Facet.get_query_params from the source: the four facet property
parameters, then the field, range and date facet parameters, each block
only when the corresponding configuration value is truthy. -/
def Facet.get_query_params (data_dict : List (String × JsonVal)) :
    Except PyErr (List (String × JsonVal)) := do
  let properties ← asObj (pyGet data_dict "properties")
  let params : List (String × JsonVal) :=
    [("facet", .str (if (pyGet properties "isEnabled").truthy then "true" else "false")),
     ("facet.limit", pyGet properties "limit"),
     ("facet.mincount", pyGet properties "mincount"),
     ("facet.sort", pyGet properties "sort")]
  let params ← if (pyGet data_dict "fields").truthy then do
      let flds ← pyIter (pyGet data_dict "fields")
      let fps ← getFieldParams flds
      pure (params ++ fps)
    else pure params
  let params ← if (pyGet data_dict "ranges").truthy then do
      let rgs ← pyIter (pyGet data_dict "ranges")
      let rps ← getRangeParams rgs
      pure (params ++ rps)
    else pure params
  let params ← if (pyGet data_dict "dates").truthy then do
      let dts ← pyIter (pyGet data_dict "dates")
      let dps ← getDateParams dts
      pure (params ++ dps)
    else pure params
  pure params

/-- The sort terms of Sorting.get_query_params: each fields entry yields
"(field) asc" when its asc flag is truthy and "(field) desc" otherwise. -/
def getSortTerms : List JsonVal → Except PyErr (List String)
  | [] => .ok []
  | fd :: rest => do
    let o ← asObj fd
    let f ← pySub o "field"
    let a ← pySub o "asc"
    let tail ← getSortTerms rest
    .ok ((f.pyStr ++ " " ++ (if a.truthy then "asc" else "desc")) :: tail)

/-- Sorting.get_query_params from the source.  Note the gate condition is
the Python expression (is_enabled and true-string or false-string), which
is a non-empty string in both cases and hence always truthy. -/
def Sorting.get_query_params (data_dict : List (String × JsonVal)) :
    Except PyErr (List (String × JsonVal)) := do
  let props ← asObj (dictGetD data_dict "properties" (.obj []))
  let gate : String := if (pyGet props "is_enabled").truthy then "true" else "false"
  if (JsonVal.str gate).truthy then
    if (pyGet data_dict "fields").truthy then do
      let flds ← pyIter (pyGet data_dict "fields")
      let terms ← getSortTerms flds
      pure [("sort", .str (String.intercalate "," terms))]
    else pure []
  else pure []

/-!
Facet label and uuid resolution.  Both functions scan one of the three
configuration sub-lists for entries whose field key equals the requested
field, repeatedly overwriting an accumulator that starts at the default
(the field itself for the label, the empty string for the uuid), so the
last matching entry wins.
-/

/-- The scan shared by get_facet_field_label and get_facet_field_uuid:
walk the sub-list, and at every entry whose field equals the requested
field overwrite the accumulator with that entry's value at attr. -/
def scanAttr (field : JsonVal) (attr : String) : List JsonVal → JsonVal → Except PyErr JsonVal
  | [], acc => .ok acc
  | fld :: rest, acc => do
    let o ← asObj fld
    let fv ← pySub o "field"
    if fv.beq field then do
      let av ← pySub o attr
      scanAttr field attr rest av
    else scanAttr field attr rest acc

/-- get_facet_field_label from the source: scan the sub-list selected by
the facet kind, defaulting to the field itself. -/
def get_facet_field_label (field : JsonVal) (ty : String)
    (facets : List (String × JsonVal)) : Except PyErr JsonVal :=
  if ty = "field" then do
    let entries ← pyIter (← pySub facets "fields")
    scanAttr field "label" entries field
  else if ty = "range" then do
    let entries ← pyIter (← pySub facets "ranges")
    scanAttr field "label" entries field
  else if ty = "date" then do
    let entries ← pyIter (← pySub facets "dates")
    scanAttr field "label" entries field
  else .ok field

/-- get_facet_field_uuid from the source: scan the sub-list selected by
the facet kind, defaulting to the empty string. -/
def get_facet_field_uuid (field : JsonVal) (ty : String)
    (facets : List (String × JsonVal)) : Except PyErr JsonVal :=
  if ty = "field" then do
    let entries ← pyIter (← pySub facets "fields")
    scanAttr field "uuid" entries (.str "")
  else if ty = "range" then do
    let entries ← pyIter (← pySub facets "ranges")
    scanAttr field "uuid" entries (.str "")
  else if ty = "date" then do
    let entries ← pyIter (← pySub facets "dates")
    scanAttr field "uuid" entries (.str "")
  else .ok (.str "")

/-!
Response normalization.  augment_solr_response aliases the response,
assigns an empty normalized_facets list, collects the per-category facet
records into a uuid-keyed mapping plus a default list, then rebuilds
normalized_facets from the configured order followed by the defaults.
-/

/-- The uuid-keyed mapping of normalized facet records; keys may be any
hashable value read from the configuration. -/
abbrev NMap := List (JsonVal × JsonVal)

/-- Running normalization state: the uuid-keyed records and the default
records in discovery order. -/
abbrev NState := NMap × List JsonVal

/-- Lookup in the uuid-keyed mapping by value equality. -/
def jsonLookup (m : NMap) (k : JsonVal) : Option JsonVal :=
  match m.find? (fun p => p.1.beq k) with
  | some p => some p.2
  | none => none

/-- Whether the uuid-keyed mapping holds the given key. -/
def jsonContains (m : NMap) (k : JsonVal) : Bool :=
  m.any (fun p => p.1.beq k)

/-- Replace the value at every pair whose key equals the given key. -/
def jsonReplace : NMap → JsonVal → JsonVal → NMap
  | [], _, _ => []
  | (k2, v2) :: rest, k, v =>
    if k2.beq k then (k2, v) :: jsonReplace rest k v else (k2, v2) :: jsonReplace rest k v

/-- Assignment into the uuid-keyed mapping: replace in place when present,
else append. -/
def jsonSet (m : NMap) (k : JsonVal) (v : JsonVal) : NMap :=
  if jsonContains m k then jsonReplace m k v else m ++ [(k, v)]

/-- Route one normalized record: records whose uuid is the empty string go
to the default list, the rest are keyed by uuid (an unhashable uuid raises
TypeError, as Python dictionary assignment would). -/
def classify (uuid facet : JsonVal) (st : NState) : Except PyErr NState :=
  if uuid.eqStr "" then .ok (st.1, st.2 ++ [facet])
  else if uuid.hashable then .ok (jsonSet st.1 uuid facet, st.2)
  else .error .typeError

/-- Process one key of the facet_fields category: build the record with
its label and raw counts, resolve the uuid, and route the record. -/
def fieldStep (facets : List (String × JsonVal)) (ffval : JsonVal)
    (st : NState) (cat : JsonVal) : Except PyErr NState := do
  let label ← get_facet_field_label cat "field" facets
  let counts ← pySubscript ffval cat
  let facet := JsonVal.obj [("field", cat), ("type", .str "field"),
                            ("label", label), ("counts", counts)]
  let uuid ← get_facet_field_uuid cat "field" facets
  classify uuid facet st

/-- Process one key of the facet_ranges category: the record also carries
the start, end and gap read from the category value. -/
def rangeStep (facets : List (String × JsonVal)) (frval : JsonVal)
    (st : NState) (cat : JsonVal) : Except PyErr NState := do
  let label ← get_facet_field_label cat "range" facets
  let catv ← pySubscript frval cat
  let counts ← pySubscript catv (.str "counts")
  let s ← pySubscript catv (.str "start")
  let e ← pySubscript catv (.str "end")
  let g ← pySubscript catv (.str "gap")
  let facet := JsonVal.obj [("field", cat), ("type", .str "range"),
                            ("label", label), ("counts", counts),
                            ("start", s), ("end", e), ("gap", g)]
  let uuid ← get_facet_field_uuid cat "range" facets
  classify uuid facet st

/-- Flatten the date buckets of one facet_dates entry into the alternating
bucket, count sequence, skipping the reserved start, end and gap keys. -/
def dateCounts (items : List (String × JsonVal)) : List JsonVal :=
  items.foldl (fun acc p =>
    if p.1 = "start" || p.1 = "end" || p.1 = "gap" then acc
    else acc ++ [JsonVal.str p.1, p.2]) []

/-- Process one key of the facet_dates category: the record carries start,
end and gap, and its counts key, appended last, holds the flattened
buckets. -/
def dateStep (facets : List (String × JsonVal)) (fdval : JsonVal)
    (st : NState) (cat : JsonVal) : Except PyErr NState := do
  let label ← get_facet_field_label cat "date" facets
  let catv ← pySubscript fdval cat
  let s ← pySubscript catv (.str "start")
  let e ← pySubscript catv (.str "end")
  let g ← pySubscript catv (.str "gap")
  let items ← pyItems catv
  let facet := JsonVal.obj [("field", cat), ("type", .str "date"),
                            ("label", label), ("start", s), ("end", e), ("gap", g),
                            ("counts", .arr (dateCounts items))]
  let uuid ← get_facet_field_uuid cat "date" facets
  classify uuid facet st

/-- One category block: when the category value is truthy, iterate its
keys and fold the per-key step through the state. -/
def catBlock (step : NState → JsonVal → Except PyErr NState) (v : JsonVal)
    (st : NState) : Except PyErr NState :=
  if v.truthy then do
    let cats ← pyIter v
    cats.foldlM step st
  else pure st

/-- The record collection phase of augment_solr_response: read
facet_counts and its three sub-keys from the (already augmented) response
and fold the three category blocks. -/
def collectFacets (augmented facets : List (String × JsonVal)) : Except PyErr NState := do
  let fc ← pySub augmented "facet_counts"
  let ffval ← pySubscript fc (.str "facet_fields")
  let st ← catBlock (fieldStep facets ffval) ffval ([], [])
  let frval ← pySubscript fc (.str "facet_ranges")
  let st ← catBlock (rangeStep facets frval) frval st
  let fdval ← pySubscript fc (.str "facet_dates")
  let st ← catBlock (dateStep facets fdval) fdval st
  pure st

/-- augment_solr_response from the source: set normalized_facets to the
empty list on the response itself, collect the records when the response
is truthy and has truthy facet_counts, then fill normalized_facets with
the records of the configured order (missing uuids silently skipped)
followed by the default records. -/
def augment_solr_response (response facets : List (String × JsonVal)) :
    Except PyErr (List (String × JsonVal)) := do
  let augmented := dictSet response "normalized_facets" (.arr [])
  let st ← if !augmented.isEmpty && (pyGet augmented "facet_counts").truthy
    then collectFacets augmented facets
    else pure (([], []) : NState)
  let ordList ← pyIter (dictGetD facets "order" (.arr []))
  let ordered := ordList.filterMap (fun u => jsonLookup st.1 u)
  pure (dictSet augmented "normalized_facets" (.arr (ordered ++ st.2)))

/-!
Dictionary lemmas.
-/

theorem containsKey_false_get_none {α : Type} (d : List (String × α)) (k : String)
    (h : containsKey d k = false) : dictGet d k = none := by
  induction d with
  | nil => rfl
  | cons p rest ih =>
    obtain ⟨k2, v⟩ := p
    simp [containsKey] at h
    simp [dictGet, h.1, ih h.2]

theorem dictGet_replaceKey {α : Type} (d : List (String × α)) (k : String) (v : α)
    (k2 : String) :
    dictGet (replaceKey d k v) k2 =
      if k = k2 then (if containsKey d k then some v else none) else dictGet d k2 := by
  induction d with
  | nil => simp [replaceKey, dictGet, containsKey]
  | cons p rest ih =>
    obtain ⟨k3, v3⟩ := p
    by_cases h3 : k3 = k
    · subst h3
      by_cases h2 : k3 = k2
      · subst h2
        simp [replaceKey, dictGet, containsKey]
      · simp [replaceKey, dictGet, containsKey, h2, ih, Ne.symm h2]
    · by_cases h2 : k3 = k2
      · subst h2
        simp [replaceKey, dictGet, containsKey, h3, Ne.symm h3]
      · simp [replaceKey, dictGet, containsKey, h3, h2, ih]

theorem dictGet_append {α : Type} (d1 d2 : List (String × α)) (k : String) :
    dictGet (d1 ++ d2) k =
      match dictGet d1 k with
      | some v => some v
      | none => dictGet d2 k := by
  induction d1 with
  | nil => simp [dictGet]
  | cons p rest ih =>
    obtain ⟨k2, v⟩ := p
    by_cases h : k2 = k
    · simp [dictGet, h]
    · simp [dictGet, h, ih]

theorem dictGet_dictSet {α : Type} (d : List (String × α)) (k : String) (v : α)
    (k2 : String) :
    dictGet (dictSet d k v) k2 = if k = k2 then some v else dictGet d k2 := by
  unfold dictSet
  by_cases hc : containsKey d k
  · simp [hc, dictGet_replaceKey]
  · simp only [hc, if_false, Bool.false_eq_true]
    rw [dictGet_append]
    by_cases h2 : k = k2
    · subst h2
      simp [containsKey_false_get_none d k (by simpa using hc), dictGet]
    · cases hg : dictGet d k2 <;> simp [hg, dictGet, h2]

theorem replaceKey_length {α : Type} (d : List (String × α)) (k : String) (v : α) :
    (replaceKey d k v).length = d.length := by
  induction d with
  | nil => rfl
  | cons p rest ih =>
    obtain ⟨k2, v2⟩ := p
    by_cases h : k2 = k <;> simp [replaceKey, h, ih]

theorem containsKey_nil_false {α : Type} (k : String) :
    containsKey ([] : List (String × α)) k = false := rfl

theorem dictSet_contains_eq {α : Type} (d : List (String × α)) (k : String) (w : α)
    (h : containsKey d k = true) : dictSet d k w = replaceKey d k w := by
  simp [dictSet, h]

theorem dictSet_not_contains_eq {α : Type} (d : List (String × α)) (k : String) (w : α)
    (h : containsKey d k = false) : dictSet d k w = d ++ [(k, w)] := by
  simp [dictSet, h]

theorem dictSet_ne_nil {α : Type} (d : List (String × α)) (k : String) (v : α) :
    (dictSet d k v).isEmpty = false := by
  by_cases hc : containsKey d k
  · rw [dictSet_contains_eq d k v hc]
    cases d with
    | nil => simp [containsKey] at hc
    | cons p rest =>
      obtain ⟨k2, v2⟩ := p
      by_cases h : k2 = k <;> simp [replaceKey, h]
  · rw [dictSet_not_contains_eq d k v (by simpa using hc)]
    simp

theorem containsKey_replaceKey {α : Type} (d : List (String × α)) (k : String) (v : α)
    (k2 : String) : containsKey (replaceKey d k v) k2 = containsKey d k2 := by
  induction d with
  | nil => rfl
  | cons p rest ih =>
    obtain ⟨k3, v3⟩ := p
    by_cases h : k3 = k
    · subst h
      simp [replaceKey, containsKey, ih]
    · simp [replaceKey, containsKey, h, ih]

theorem containsKey_append {α : Type} (d1 d2 : List (String × α)) (k : String) :
    containsKey (d1 ++ d2) k = (containsKey d1 k || containsKey d2 k) := by
  induction d1 with
  | nil => simp [containsKey]
  | cons p rest ih =>
    obtain ⟨k2, v⟩ := p
    simp [containsKey, ih, Bool.or_assoc]

theorem containsKey_dictSet_self {α : Type} (d : List (String × α)) (k : String) (v : α) :
    containsKey (dictSet d k v) k = true := by
  unfold dictSet
  by_cases hc : containsKey d k
  · simp [containsKey_replaceKey, hc]
  · simp [hc, containsKey_append, containsKey]

theorem replaceKey_replaceKey {α : Type} (d : List (String × α)) (k : String) (v w : α) :
    replaceKey (replaceKey d k v) k w = replaceKey d k w := by
  induction d with
  | nil => rfl
  | cons p rest ih =>
    obtain ⟨k2, v2⟩ := p
    by_cases h : k2 = k <;> simp [replaceKey, h, ih]

theorem replaceKey_not_contains {α : Type} (d : List (String × α)) (k : String) (v : α)
    (h : containsKey d k = false) : replaceKey d k v = d := by
  induction d with
  | nil => rfl
  | cons p rest ih =>
    obtain ⟨k2, v2⟩ := p
    simp [containsKey] at h
    simp [replaceKey, h.1, ih h.2]

theorem replaceKey_append {α : Type} (d1 d2 : List (String × α)) (k : String) (v : α) :
    replaceKey (d1 ++ d2) k v = replaceKey d1 k v ++ replaceKey d2 k v := by
  induction d1 with
  | nil => rfl
  | cons p rest ih =>
    obtain ⟨k2, v2⟩ := p
    by_cases h : k2 = k <;> simp [replaceKey, h, ih]

theorem dictSet_dictSet {α : Type} (d : List (String × α)) (k : String) (v w : α) :
    dictSet (dictSet d k v) k w = dictSet d k w := by
  rw [dictSet_contains_eq (dictSet d k v) k w (containsKey_dictSet_self d k v)]
  by_cases hc : containsKey d k
  · rw [dictSet_contains_eq d k v hc, dictSet_contains_eq d k w hc, replaceKey_replaceKey]
  · rw [dictSet_not_contains_eq d k v (by simpa using hc),
        dictSet_not_contains_eq d k w (by simpa using hc),
        replaceKey_append, replaceKey_not_contains d k w (by simpa using hc)]
    simp [replaceKey]

/-!
Merge update lemmas.
-/

theorem postStep_get {α : Type} (post : List (String × Option α)) (d : List (String × α))
    (attr k : String) :
    dictGet (postStep post d attr) k =
      match dictGet post attr with
      | some (some v) => if attr = k then some v else dictGet d k
      | _ => dictGet d k := by
  unfold postStep
  cases hp : dictGet post attr with
  | none => simp
  | some o =>
    cases o with
    | none => simp
    | some v => simp [dictGet_dictSet]

theorem updateFromPostAttrs_get {α : Type} (attrs : List String)
    (post : List (String × Option α)) (d : List (String × α)) (k : String) :
    dictGet (updateFromPostAttrs attrs d post) k =
      match dictGet post k with
      | some (some v) => if k ∈ attrs then some v else dictGet d k
      | _ => dictGet d k := by
  induction attrs generalizing d with
  | nil =>
    cases hp : dictGet post k with
    | none => simp [updateFromPostAttrs]
    | some o => cases o <;> simp [updateFromPostAttrs]
  | cons a rest ih =>
    have hstep : updateFromPostAttrs (a :: rest) d post =
        updateFromPostAttrs rest (postStep post d a) post := rfl
    rw [hstep, ih]
    cases hp : dictGet post k with
    | none =>
      simp only []
      rw [postStep_get]
      by_cases hak : a = k
      · subst hak
        simp [hp]
      · cases hq : dictGet post a with
        | none => simp
        | some o => cases o <;> simp [hak]
    | some o =>
      cases o with
      | none =>
        simp only []
        rw [postStep_get]
        by_cases hak : a = k
        · subst hak
          simp [hp]
        · cases hq : dictGet post a with
          | none => simp
          | some o2 => cases o2 <;> simp [hak]
      | some v =>
        by_cases hk : k ∈ rest
        · simp [hk]
        · simp only [hk, if_false]
          rw [postStep_get]
          by_cases hak : a = k
          · subst hak
            simp [hp, List.mem_cons, hk]
          · have : ¬ k ∈ a :: rest := by
              simp [List.mem_cons, hak, hk, Ne.symm hak]
            simp only [this, if_false]
            cases hq : dictGet post a with
            | none => simp
            | some o2 => cases o2 <;> simp [hak]

/-- Every pair of the dictionary holding the given key holds the given
value. -/
def AllKV {α : Type} (d : List (String × α)) (k : String) (v : α) : Prop :=
  ∀ p ∈ d, p.1 = k → p.2 = v

theorem allKV_replaceKey_self {α : Type} (d : List (String × α)) (k : String) (v : α) :
    AllKV (replaceKey d k v) k v := by
  induction d with
  | nil => intro p hp; simp [replaceKey] at hp
  | cons q rest ih =>
    obtain ⟨k2, v2⟩ := q
    intro p hp hk
    by_cases h : k2 = k
    · simp only [replaceKey, h, if_true] at hp
      rcases List.mem_cons.mp hp with h1 | h1
      · subst h1; rfl
      · exact ih p h1 hk
    · simp only [replaceKey, h, if_false] at hp
      rcases List.mem_cons.mp hp with h1 | h1
      · subst h1; exact absurd hk h
      · exact ih p h1 hk

theorem not_contains_no_pair {α : Type} (d : List (String × α)) (k : String)
    (h : containsKey d k = false) : ∀ p ∈ d, p.1 ≠ k := by
  induction d with
  | nil => intro p hp; simp at hp
  | cons q rest ih =>
    obtain ⟨k2, v2⟩ := q
    simp [containsKey] at h
    intro p hp
    rcases List.mem_cons.mp hp with h1 | h1
    · subst h1; exact h.1
    · exact ih h.2 p h1

theorem allKV_dictSet_self {α : Type} (d : List (String × α)) (k : String) (v : α) :
    AllKV (dictSet d k v) k v := by
  by_cases hc : containsKey d k
  · rw [dictSet_contains_eq d k v hc]
    exact allKV_replaceKey_self d k v
  · rw [dictSet_not_contains_eq d k v (by simpa using hc)]
    intro p hp hk
    rcases List.mem_append.mp hp with h1 | h1
    · exact absurd hk (not_contains_no_pair d k (by simpa using hc) p h1)
    · simp at h1; simp [h1]

theorem replaceKey_of_allKV {α : Type} (d : List (String × α)) (k : String) (v : α)
    (h : AllKV d k v) : replaceKey d k v = d := by
  induction d with
  | nil => rfl
  | cons q rest ih =>
    obtain ⟨k2, v2⟩ := q
    have hrest : AllKV rest k v := fun p hp hk => h p (List.mem_cons_of_mem _ hp) hk
    by_cases h2 : k2 = k
    · have hv2 : v2 = v := h (k2, v2) (List.mem_cons_self _ _) h2
      simp [replaceKey, h2, hv2, ih hrest]
    · simp [replaceKey, h2, ih hrest]

theorem dictSet_of_allKV {α : Type} (d : List (String × α)) (k : String) (v : α)
    (hc : containsKey d k = true) (h : AllKV d k v) : dictSet d k v = d := by
  rw [dictSet_contains_eq d k v hc, replaceKey_of_allKV d k v h]

theorem mem_replaceKey {α : Type} (d : List (String × α)) (k : String) (v : α)
    (p : String × α) (hp : p ∈ replaceKey d k v) : p ∈ d ∨ p = (k, v) := by
  induction d with
  | nil => simp [replaceKey] at hp
  | cons q rest ih =>
    obtain ⟨k2, v2⟩ := q
    by_cases h : k2 = k
    · simp only [replaceKey, h, if_true] at hp
      rcases List.mem_cons.mp hp with h1 | h1
      · right; exact h1
      · rcases ih h1 with h2 | h2
        · left; exact List.mem_cons_of_mem _ h2
        · right; exact h2
    · simp only [replaceKey, h, if_false] at hp
      rcases List.mem_cons.mp hp with h1 | h1
      · left; exact h1 ▸ List.mem_cons_self _ _
      · rcases ih h1 with h2 | h2
        · left; exact List.mem_cons_of_mem _ h2
        · right; exact h2

theorem mem_dictSet {α : Type} (d : List (String × α)) (k : String) (v : α)
    (p : String × α) (hp : p ∈ dictSet d k v) : p ∈ d ∨ p = (k, v) := by
  by_cases hc : containsKey d k
  · rw [dictSet_contains_eq d k v hc] at hp
    exact mem_replaceKey d k v p hp
  · rw [dictSet_not_contains_eq d k v (by simpa using hc)] at hp
    rcases List.mem_append.mp hp with h1 | h1
    · left; exact h1
    · right; simpa using h1

theorem allKV_dictSet_ne {α : Type} (d : List (String × α)) (k k2 : String) (v w : α)
    (hne : k2 ≠ k) (h : AllKV d k v) : AllKV (dictSet d k2 w) k v := by
  intro p hp hk
  rcases mem_dictSet d k2 w p hp with h1 | h1
  · exact h p h1 hk
  · subst h1; exact absurd hk hne

theorem containsKey_dictSet_other {α : Type} (d : List (String × α)) (k k2 : String) (w : α)
    (h : containsKey d k = true) : containsKey (dictSet d k2 w) k = true := by
  by_cases hc : containsKey d k2
  · rw [dictSet_contains_eq d k2 w hc, containsKey_replaceKey]
    exact h
  · rw [dictSet_not_contains_eq d k2 w (by simpa using hc), containsKey_append, h]
    rfl

/-- After an update_from_post step has run for an attribute, the document
holds exactly the posted value at that attribute (when one was posted). -/
def HoldsPost {α : Type} (post : List (String × Option α)) (d : List (String × α))
    (attr : String) : Prop :=
  match dictGet post attr with
  | some (some v) => containsKey d attr = true ∧ AllKV d attr v
  | _ => True

theorem holdsPost_postStep_self {α : Type} (post : List (String × Option α))
    (d : List (String × α)) (attr : String) : HoldsPost post (postStep post d attr) attr := by
  unfold HoldsPost postStep
  cases hp : dictGet post attr with
  | none => trivial
  | some o =>
    cases o with
    | none => trivial
    | some v => exact ⟨containsKey_dictSet_self d attr v, allKV_dictSet_self d attr v⟩

theorem holdsPost_postStep_preserve {α : Type} (post : List (String × Option α))
    (d : List (String × α)) (attr attr2 : String) (h : HoldsPost post d attr) :
    HoldsPost post (postStep post d attr2) attr := by
  by_cases he : attr2 = attr
  · subst he; exact holdsPost_postStep_self post d attr2
  · unfold HoldsPost at h ⊢
    cases hp : dictGet post attr with
    | none => trivial
    | some o =>
      cases o with
      | none => trivial
      | some v =>
        rw [hp] at h
        unfold postStep
        cases hq : dictGet post attr2 with
        | none => exact h
        | some o2 =>
          cases o2 with
          | none => exact h
          | some w =>
            exact ⟨containsKey_dictSet_other d attr attr2 w h.1,
                   allKV_dictSet_ne d attr attr2 v w he h.2⟩

theorem holdsPost_foldl_preserve {α : Type} (post : List (String × Option α))
    (l : List String) (attr : String) :
    ∀ (d : List (String × α)), HoldsPost post d attr →
      HoldsPost post (l.foldl (postStep post) d) attr := by
  induction l with
  | nil => intro d h; exact h
  | cons a rest ih =>
    intro d h
    exact ih (postStep post d a) (holdsPost_postStep_preserve post d attr a h)

theorem holdsPost_after_foldl {α : Type} (post : List (String × Option α))
    (l : List String) (attr : String) (hmem : attr ∈ l) :
    ∀ (d : List (String × α)), HoldsPost post (l.foldl (postStep post) d) attr := by
  induction l with
  | nil => simp at hmem
  | cons a rest ih =>
    intro d
    by_cases hr : attr ∈ rest
    · exact ih hr (postStep post d a)
    · have ha : attr = a := by
        rcases List.mem_cons.mp hmem with h1 | h1
        · exact h1
        · exact absurd h1 hr
      subst ha
      exact holdsPost_foldl_preserve post rest attr (postStep post d attr)
        (holdsPost_postStep_self post d attr)

theorem postStep_of_holdsPost {α : Type} (post : List (String × Option α))
    (d : List (String × α)) (attr : String) (h : HoldsPost post d attr) :
    postStep post d attr = d := by
  unfold HoldsPost at h
  unfold postStep
  cases hp : dictGet post attr with
  | none => rfl
  | some o =>
    cases o with
    | none => rfl
    | some v =>
      rw [hp] at h
      exact dictSet_of_allKV d attr v h.1 h.2

theorem foldl_id_of_holdsPost {α : Type} (post : List (String × Option α))
    (l : List String) :
    ∀ (d : List (String × α)), (∀ a ∈ l, HoldsPost post d a) →
      l.foldl (postStep post) d = d := by
  induction l with
  | nil => intro d _; rfl
  | cons a rest ih =>
    intro d h
    have h1 : postStep post d a = d := postStep_of_holdsPost post d a (h a (by simp))
    rw [List.foldl_cons, h1]
    exact ih d (fun b hb => h b (List.mem_cons_of_mem _ hb))

theorem updateFromPostAttrs_idem {α : Type} (attrs : List String)
    (d : List (String × α)) (post : List (String × Option α)) :
    updateFromPostAttrs attrs (updateFromPostAttrs attrs d post) post =
      updateFromPostAttrs attrs d post := by
  unfold updateFromPostAttrs
  exact foldl_id_of_holdsPost post attrs (attrs.foldl (postStep post) d)
    (fun a ha => holdsPost_after_foldl post attrs a ha d)

theorem updateFromPostAttrs_untouched {α : Type} (attrs : List String)
    (d : List (String × α)) (post : List (String × Option α)) (k : String)
    (h : k ∉ attrs ∨ dictGet post k = none ∨ dictGet post k = some none) :
    dictGet (updateFromPostAttrs attrs d post) k = dictGet d k := by
  rw [updateFromPostAttrs_get]
  rcases h with h | h | h
  · cases hp : dictGet post k with
    | none => simp
    | some o =>
      cases o with
      | none => simp
      | some v => simp [h]
  · simp [h]
  · simp [h]

theorem updateFromPostAttrs_overwrite {α : Type} (attrs : List String)
    (d : List (String × α)) (post : List (String × Option α)) (k : String) (v : α)
    (h1 : k ∈ attrs) (h2 : dictGet post k = some (some v)) :
    dictGet (updateFromPostAttrs attrs d post) k = some v := by
  rw [updateFromPostAttrs_get, h2]
  simp [h1]

/-- Claim C1 (code bug in the source): the sort query parameter builder is
meant to emit only when properties.is_enabled is true, but its gate is the
Python expression (is_enabled and true-string or false-string), which is a
non-empty string either way; with is_enabled set to false and a non-empty
fields list it still emits sort=date desc,score asc. -/
theorem sorting_emits_sort_despite_disabled :
    (pyGet [("is_enabled", JsonVal.bool false)] "is_enabled").truthy = false ∧
    Sorting.get_query_params
      [("properties", .obj [("is_enabled", .bool false)]),
       ("fields", .arr [.obj [("field", .str "date"), ("asc", .bool false)],
                        .obj [("field", .str "score"), ("asc", .bool true)]])] =
      .ok [("sort", .str "date desc,score asc")] := ⟨rfl, rfl⟩

/-- Claim C4: update_from_post overwrites exactly the recognized attributes
for which the posted mapping holds a non-null value and leaves every other
attribute unchanged; unrecognized posted attribute names are ignored.
Stated for the facet and sorting configuration documents cited by the
claim. -/
theorem update_from_post_frame {α : Type} (d : List (String × α))
    (post : List (String × Option α)) (k : String) :
    ((k ∉ Facet.ATTRIBUTES ∨ dictGet post k = none ∨ dictGet post k = some none) →
       dictGet (Facet.update_from_post d post) k = dictGet d k) ∧
    (∀ v, k ∈ Facet.ATTRIBUTES → dictGet post k = some (some v) →
       dictGet (Facet.update_from_post d post) k = some v) ∧
    ((k ∉ Sorting.ATTRIBUTES ∨ dictGet post k = none ∨ dictGet post k = some none) →
       dictGet (Sorting.update_from_post d post) k = dictGet d k) ∧
    (∀ v, k ∈ Sorting.ATTRIBUTES → dictGet post k = some (some v) →
       dictGet (Sorting.update_from_post d post) k = some v) :=
  ⟨fun h => updateFromPostAttrs_untouched Facet.ATTRIBUTES d post k h,
   fun v h1 h2 => updateFromPostAttrs_overwrite Facet.ATTRIBUTES d post k v h1 h2,
   fun h => updateFromPostAttrs_untouched Sorting.ATTRIBUTES d post k h,
   fun v h1 h2 => updateFromPostAttrs_overwrite Sorting.ATTRIBUTES d post k v h1 h2⟩

/-- Witness for claim C4: a posted update holding only fields overwrites
fields and leaves properties untouched on a concrete facet document. -/
theorem update_from_post_frame_witness :
    dictGet (Facet.update_from_post
        [("properties", (1 : Nat)), ("ranges", 2)] [("fields", some 5)]) "properties" =
      dictGet [("properties", (1 : Nat)), ("ranges", 2)] "properties" ∧
    dictGet (Facet.update_from_post
        [("properties", (1 : Nat)), ("ranges", 2)] [("fields", some 5)]) "fields" =
      some 5 :=
  ⟨(update_from_post_frame [("properties", 1), ("ranges", 2)] [("fields", some 5)]
      "properties").1 (Or.inr (Or.inl (by decide))),
   (update_from_post_frame [("properties", 1), ("ranges", 2)] [("fields", some 5)]
      "fields").2.1 5 (by decide) (by decide)⟩

/-- Claim C5: each date facet entry is rendered with the start boundary as
NOW-(start.frequency)(start.unit)/(gap.unit), rounding only the start
boundary to the unit of the gap, the end boundary as
NOW-(end.frequency)(end.unit), and the gap as +(gap.frequency)(gap.unit). -/
theorem date_facet_param_rendering (pr : List (String × JsonVal))
    (fld sf su ef eu gf gu : JsonVal) :
    Facet.get_query_params
      [("properties", .obj pr),
       ("dates", .arr [.obj [("field", fld),
         ("start", .obj [("frequency", sf), ("unit", su)]),
         ("end", .obj [("frequency", ef), ("unit", eu)]),
         ("gap", .obj [("frequency", gf), ("unit", gu)])]])] =
    .ok [("facet", .str (if (pyGet pr "isEnabled").truthy then "true" else "false")),
         ("facet.limit", pyGet pr "limit"),
         ("facet.mincount", pyGet pr "mincount"),
         ("facet.sort", pyGet pr "sort"),
         ("facet.date", fld),
         ("f." ++ fld.pyStr ++ ".facet.date.start",
           .str ("NOW-" ++ sf.pyStr ++ su.pyStr ++ "/" ++ gu.pyStr)),
         ("f." ++ fld.pyStr ++ ".facet.date.end", .str ("NOW-" ++ ef.pyStr ++ eu.pyStr)),
         ("f." ++ fld.pyStr ++ ".facet.date.gap", .str ("+" ++ gf.pyStr ++ gu.pyStr))] := by
  rfl

/-- Claim C8: applying the same partial update twice yields the same stored
document as applying it once, for the facet and result configuration
documents cited by the claim. -/
theorem update_from_post_idempotent {α : Type} (d : List (String × α))
    (post : List (String × Option α)) :
    Facet.update_from_post (Facet.update_from_post d post) post =
      Facet.update_from_post d post ∧
    Result.update_from_post (Result.update_from_post d post) post =
      Result.update_from_post d post :=
  ⟨updateFromPostAttrs_idem Facet.ATTRIBUTES d post,
   updateFromPostAttrs_idem Result.ATTRIBUTES d post⟩

/-!
Except monad lemmas and resolver scan lemmas.
-/

@[simp] theorem except_error_bind {ε α β : Type} (e : ε) (f : α → Except ε β) :
    (Except.error e : Except ε α) >>= f = .error e := rfl

@[simp] theorem except_ok_bind {ε α β : Type} (a : α) (f : α → Except ε β) :
    (Except.ok a : Except ε α) >>= f = f a := rfl

theorem except_bind_eq_ok {ε α β : Type} {x : Except ε α} {f : α → Except ε β} {b : β} :
    x >>= f = .ok b ↔ ∃ a, x = .ok a ∧ f a = .ok b := by
  cases x <;> simp

/-- An entry that is a dictionary holding every one of the given keys. -/
def hasKeys (keys : List String) : JsonVal → Bool
  | .obj o => keys.all (fun k => (dictGet o k).isSome)
  | _ => false

/-- Whether an entry is a dictionary whose field key equals the given
field. -/
def entryFieldIs (e field : JsonVal) : Bool :=
  match e with
  | .obj o =>
    match dictGet o "field" with
    | some fv => fv.beq field
    | none => false
  | _ => false

theorem scanAttr_ok_of_wf (field : JsonVal) (attr : String) (l : List JsonVal)
    (hwf : ∀ e ∈ l, hasKeys ["field", attr] e = true) :
    ∀ acc, ∃ r, scanAttr field attr l acc = .ok r := by
  induction l with
  | nil => intro acc; exact ⟨acc, rfl⟩
  | cons e rest ih =>
    intro acc
    have he := hwf e (by simp)
    cases e with
    | obj o =>
      simp only [hasKeys, List.all_cons, List.all_nil, Bool.and_true, Bool.and_eq_true] at he
      obtain ⟨fv, hfv⟩ := Option.isSome_iff_exists.mp he.1
      obtain ⟨av, hav⟩ := Option.isSome_iff_exists.mp he.2
      have ihrest := ih (fun e2 h2 => hwf e2 (List.mem_cons_of_mem _ h2))
      by_cases hm : fv.beq field = true
      · obtain ⟨r, hr⟩ := ihrest av
        exact ⟨r, by simp [scanAttr, asObj, pySub, hfv, hav, hm, hr]⟩
      · obtain ⟨r, hr⟩ := ihrest acc
        exact ⟨r, by simp [scanAttr, asObj, pySub, hfv, hm, hr]⟩
    | null => simp [hasKeys] at he
    | bool b => simp [hasKeys] at he
    | num n => simp [hasKeys] at he
    | str s => simp [hasKeys] at he
    | arr xs => simp [hasKeys] at he

theorem scanAttr_nomatch (field : JsonVal) (attr : String) (l : List JsonVal)
    (hwf : ∀ e ∈ l, hasKeys ["field"] e = true)
    (hmiss : ∀ e ∈ l, entryFieldIs e field = false) :
    ∀ acc, scanAttr field attr l acc = .ok acc := by
  induction l with
  | nil => intro acc; rfl
  | cons e rest ih =>
    intro acc
    have he := hwf e (by simp)
    have hm := hmiss e (by simp)
    cases e with
    | obj o =>
      simp only [hasKeys, List.all_cons, List.all_nil, Bool.and_true] at he
      obtain ⟨fv, hfv⟩ := Option.isSome_iff_exists.mp he
      simp only [entryFieldIs, hfv] at hm
      have ihrest := ih (fun e2 h2 => hwf e2 (List.mem_cons_of_mem _ h2))
        (fun e2 h2 => hmiss e2 (List.mem_cons_of_mem _ h2))
      simp [scanAttr, asObj, pySub, hfv, hm, ihrest acc]
    | null => simp [hasKeys] at he
    | bool b => simp [hasKeys] at he
    | num n => simp [hasKeys] at he
    | str s => simp [hasKeys] at he
    | arr xs => simp [hasKeys] at he

theorem scanAttr_append (field : JsonVal) (attr : String) (l1 l2 : List JsonVal) :
    ∀ acc, scanAttr field attr (l1 ++ l2) acc =
      (scanAttr field attr l1 acc) >>= (fun a => scanAttr field attr l2 a) := by
  induction l1 with
  | nil => intro acc; simp [scanAttr]
  | cons e rest ih =>
    intro acc
    cases e with
    | obj o =>
      cases hfv : dictGet o "field" with
      | none => simp [scanAttr, asObj, pySub, hfv]
      | some fv =>
        by_cases hm : fv.beq field = true
        · cases hav : dictGet o attr with
          | none => simp [scanAttr, asObj, pySub, hfv, hm, hav]
          | some av => simp [scanAttr, asObj, pySub, hfv, hm, hav, ih]
        · simp [scanAttr, asObj, pySub, hfv, hm, ih]
    | null => simp [scanAttr, asObj]
    | bool b => simp [scanAttr, asObj]
    | num n => simp [scanAttr, asObj]
    | str s => simp [scanAttr, asObj]
    | arr xs => simp [scanAttr, asObj]

theorem scanAttr_match_head (field : JsonVal) (attr : String)
    (o : List (String × JsonVal)) (rest : List JsonVal) (fv av acc : JsonVal)
    (hfv : dictGet o "field" = some fv) (hm : fv.beq field = true)
    (hav : dictGet o attr = some av) :
    scanAttr field attr (JsonVal.obj o :: rest) acc = scanAttr field attr rest av := by
  simp [scanAttr, asObj, pySub, hfv, hm, hav]

theorem hasKeys_of_three (e : JsonVal) (attr : String)
    (hattr : attr = "field" ∨ attr = "label" ∨ attr = "uuid")
    (h : hasKeys ["field", "label", "uuid"] e = true) : hasKeys ["field", attr] e = true := by
  cases e <;> simp [hasKeys] at h ⊢
  rcases hattr with h2 | h2 | h2 <;> subst h2 <;> simp [h]

theorem hasKeys_field_of_three (e : JsonVal)
    (h : hasKeys ["field", "label", "uuid"] e = true) : hasKeys ["field"] e = true := by
  cases e <;> simp [hasKeys] at h ⊢
  exact h.1

/-- Claim C6: label and uuid resolution scan the sub-list matching the
facet kind for entries whose field equals the given name; with well formed
entries they never raise, and when no entry matches they return the field
itself as the label and the empty string as the uuid. -/
theorem facet_resolver_default_on_miss (field : JsonVal) (ty key : String)
    (facets : List (String × JsonVal)) (entries : List JsonVal)
    (hkind : (ty = "field" ∧ key = "fields") ∨ (ty = "range" ∧ key = "ranges") ∨
             (ty = "date" ∧ key = "dates"))
    (hsub : dictGet facets key = some (.arr entries))
    (hwf : entries.all (hasKeys ["field", "label", "uuid"]) = true) :
    (∃ l, get_facet_field_label field ty facets = .ok l) ∧
    (∃ u, get_facet_field_uuid field ty facets = .ok u) ∧
    (entries.all (fun e => !entryFieldIs e field) = true →
       get_facet_field_label field ty facets = .ok field ∧
       get_facet_field_uuid field ty facets = .ok (.str "")) := by
  rw [List.all_eq_true] at hwf
  have hlab : get_facet_field_label field ty facets = scanAttr field "label" entries field := by
    rcases hkind with ⟨h1, h2⟩ | ⟨h1, h2⟩ | ⟨h1, h2⟩ <;> subst h1 <;> subst h2 <;>
      simp [get_facet_field_label, pySub, hsub, pyIter]
  have huid : get_facet_field_uuid field ty facets =
      scanAttr field "uuid" entries (.str "") := by
    rcases hkind with ⟨h1, h2⟩ | ⟨h1, h2⟩ | ⟨h1, h2⟩ <;> subst h1 <;> subst h2 <;>
      simp [get_facet_field_uuid, pySub, hsub, pyIter]
  refine ⟨?_, ?_, ?_⟩
  · rw [hlab]
    exact scanAttr_ok_of_wf field "label" entries
      (fun e he => hasKeys_of_three e "label" (Or.inr (Or.inl rfl)) (hwf e he)) field
  · rw [huid]
    exact scanAttr_ok_of_wf field "uuid" entries
      (fun e he => hasKeys_of_three e "uuid" (Or.inr (Or.inr rfl)) (hwf e he)) (.str "")
  · intro hmiss
    rw [List.all_eq_true] at hmiss
    have hmiss2 : ∀ e ∈ entries, entryFieldIs e field = false := by
      intro e he
      have := hmiss e he
      simpa using this
    have hwff : ∀ e ∈ entries, hasKeys ["field"] e = true :=
      fun e he => hasKeys_field_of_three e (hwf e he)
    exact ⟨by rw [hlab]; exact scanAttr_nomatch field "label" entries hwff hmiss2 field,
           by rw [huid]; exact scanAttr_nomatch field "uuid" entries hwff hmiss2 (.str "")⟩

/-- Witness for claim C6: a lookup of field b against a configuration
whose only range entry has field a succeeds and yields the defaults. -/
theorem facet_resolver_default_on_miss_witness :
    (∃ l, get_facet_field_label (.str "b") "range"
       [("ranges", .arr [.obj [("field", .str "a"), ("label", .str "A"),
                               ("uuid", .str "u")]])] = .ok l) ∧
    (∃ u, get_facet_field_uuid (.str "b") "range"
       [("ranges", .arr [.obj [("field", .str "a"), ("label", .str "A"),
                               ("uuid", .str "u")]])] = .ok u) ∧
    (([JsonVal.obj [("field", .str "a"), ("label", .str "A"), ("uuid", .str "u")]].all
        (fun e => !entryFieldIs e (.str "b")) = true) →
       get_facet_field_label (.str "b") "range"
         [("ranges", .arr [.obj [("field", .str "a"), ("label", .str "A"),
                                 ("uuid", .str "u")]])] = .ok (.str "b") ∧
       get_facet_field_uuid (.str "b") "range"
         [("ranges", .arr [.obj [("field", .str "a"), ("label", .str "A"),
                                 ("uuid", .str "u")]])] = .ok (.str "")) :=
  facet_resolver_default_on_miss (.str "b") "range" "ranges"
    [("ranges", .arr [.obj [("field", .str "a"), ("label", .str "A"), ("uuid", .str "u")]])]
    [.obj [("field", .str "a"), ("label", .str "A"), ("uuid", .str "u")]]
    (Or.inr (Or.inl ⟨rfl, rfl⟩)) rfl rfl

/-- Claim C9: when several entries of the matching sub-list share the
requested field name, resolution returns the label and uuid of the last
matching entry in document order (the scan does not stop at the first
match). -/
theorem facet_resolver_last_match (field : JsonVal) (ty key : String)
    (facets : List (String × JsonVal)) (pre tail : List JsonVal)
    (o : List (String × JsonVal)) (fv lv uv : JsonVal)
    (hkind : (ty = "field" ∧ key = "fields") ∨ (ty = "range" ∧ key = "ranges") ∨
             (ty = "date" ∧ key = "dates"))
    (hsub : dictGet facets key = some (.arr (pre ++ JsonVal.obj o :: tail)))
    (hwfpre : pre.all (hasKeys ["field", "label", "uuid"]) = true)
    (hfv : dictGet o "field" = some fv) (hm : fv.beq field = true)
    (hlv : dictGet o "label" = some lv) (huv : dictGet o "uuid" = some uv)
    (hwftail : tail.all (hasKeys ["field"]) = true)
    (hmisstail : tail.all (fun e => !entryFieldIs e field) = true) :
    get_facet_field_label field ty facets = .ok lv ∧
    get_facet_field_uuid field ty facets = .ok uv := by
  rw [List.all_eq_true] at hwfpre hwftail hmisstail
  have hmiss2 : ∀ e ∈ tail, entryFieldIs e field = false := by
    intro e he
    have := hmisstail e he
    simpa using this
  have hlab : get_facet_field_label field ty facets =
      scanAttr field "label" (pre ++ JsonVal.obj o :: tail) field := by
    rcases hkind with ⟨h1, h2⟩ | ⟨h1, h2⟩ | ⟨h1, h2⟩ <;> subst h1 <;> subst h2 <;>
      simp [get_facet_field_label, pySub, hsub, pyIter]
  have huid : get_facet_field_uuid field ty facets =
      scanAttr field "uuid" (pre ++ JsonVal.obj o :: tail) (.str "") := by
    rcases hkind with ⟨h1, h2⟩ | ⟨h1, h2⟩ | ⟨h1, h2⟩ <;> subst h1 <;> subst h2 <;>
      simp [get_facet_field_uuid, pySub, hsub, pyIter]
  constructor
  · rw [hlab, scanAttr_append]
    obtain ⟨a, ha⟩ := scanAttr_ok_of_wf field "label" pre
      (fun e he => hasKeys_of_three e "label" (Or.inr (Or.inl rfl)) (hwfpre e he)) field
    rw [ha, except_ok_bind,
        scanAttr_match_head field "label" o tail fv lv a hfv hm hlv]
    exact scanAttr_nomatch field "label" tail hwftail hmiss2 lv
  · rw [huid, scanAttr_append]
    obtain ⟨a, ha⟩ := scanAttr_ok_of_wf field "uuid" pre
      (fun e he => hasKeys_of_three e "uuid" (Or.inr (Or.inr rfl)) (hwfpre e he)) (.str "")
    rw [ha, except_ok_bind,
        scanAttr_match_head field "uuid" o tail fv uv a hfv hm huv]
    exact scanAttr_nomatch field "uuid" tail hwftail hmiss2 uv

/-- Witness for claim C9: with two entries for field a, resolution yields
the label and uuid of the second one. -/
theorem facet_resolver_last_match_witness :
    get_facet_field_label (.str "a") "field"
      [("fields", .arr [.obj [("field", .str "a"), ("label", .str "first"),
                              ("uuid", .str "u1")],
                        .obj [("field", .str "a"), ("label", .str "second"),
                              ("uuid", .str "u2")]])] = .ok (.str "second") ∧
    get_facet_field_uuid (.str "a") "field"
      [("fields", .arr [.obj [("field", .str "a"), ("label", .str "first"),
                              ("uuid", .str "u1")],
                        .obj [("field", .str "a"), ("label", .str "second"),
                              ("uuid", .str "u2")]])] = .ok (.str "u2") :=
  facet_resolver_last_match (.str "a") "field" "fields"
    [("fields", .arr [.obj [("field", .str "a"), ("label", .str "first"), ("uuid", .str "u1")],
                      .obj [("field", .str "a"), ("label", .str "second"), ("uuid", .str "u2")]])]
    [.obj [("field", .str "a"), ("label", .str "first"), ("uuid", .str "u1")]] []
    [("field", .str "a"), ("label", .str "second"), ("uuid", .str "u2")]
    (.str "a") (.str "second") (.str "u2")
    (Or.inl ⟨rfl, rfl⟩) rfl rfl rfl rfl rfl rfl rfl rfl

mutual

theorem JsonVal.beq_refl : ∀ a : JsonVal, JsonVal.beq a a = true
  | .null => rfl
  | .bool b => by simp [JsonVal.beq]
  | .num n => by simp [JsonVal.beq]
  | .str s => by simp [JsonVal.beq]
  | .arr xs => by simpa [JsonVal.beq] using JsonVal.beqArr_refl xs
  | .obj kvs => by simpa [JsonVal.beq] using JsonVal.beqObj_refl kvs

theorem JsonVal.beqArr_refl : ∀ l : List JsonVal, JsonVal.beqArr l l = true
  | [] => rfl
  | x :: xs => by
    simp only [JsonVal.beqArr, Bool.and_eq_true]
    exact ⟨JsonVal.beq_refl x, JsonVal.beqArr_refl xs⟩

theorem JsonVal.beqObj_refl : ∀ l : List (String × JsonVal), JsonVal.beqObj l l = true
  | [] => rfl
  | (k, v) :: kvs => by
    simp only [JsonVal.beqObj, Bool.and_eq_true]
    exact ⟨⟨by simp, JsonVal.beq_refl v⟩, JsonVal.beqObj_refl kvs⟩

end

theorem eqStr_empty_eq {u : JsonVal} (h : u.eqStr "" = true) : u = .str "" := by
  cases u <;> simp [JsonVal.eqStr] at h
  simp [h]

theorem mem_jsonReplace (m : NMap) (k v : JsonVal) (p : JsonVal × JsonVal)
    (hp : p ∈ jsonReplace m k v) : p ∈ m ∨ (p.2 = v ∧ p.1.beq k = true) := by
  induction m with
  | nil => simp [jsonReplace] at hp
  | cons q rest ih =>
    obtain ⟨k2, v2⟩ := q
    by_cases h : k2.beq k = true
    · simp only [jsonReplace, h, if_true] at hp
      rcases List.mem_cons.mp hp with h1 | h1
      · right; subst h1; exact ⟨rfl, h⟩
      · rcases ih h1 with h2 | h2
        · left; exact List.mem_cons_of_mem _ h2
        · right; exact h2
    · simp only [jsonReplace, h, if_false] at hp
      rcases List.mem_cons.mp hp with h1 | h1
      · left; exact h1 ▸ List.mem_cons_self _ _
      · rcases ih h1 with h2 | h2
        · left; exact List.mem_cons_of_mem _ h2
        · right; exact h2

theorem mem_jsonSet (m : NMap) (k v : JsonVal) (p : JsonVal × JsonVal)
    (hp : p ∈ jsonSet m k v) : p ∈ m ∨ (p.2 = v ∧ p.1.beq k = true) := by
  unfold jsonSet at hp
  by_cases hc : jsonContains m k
  · rw [if_pos hc] at hp
    exact mem_jsonReplace m k v p hp
  · rw [if_neg hc] at hp
    rcases List.mem_append.mp hp with h1 | h1
    · left; exact h1
    · right
      simp at h1
      subst h1
      exact ⟨rfl, JsonVal.beq_refl k⟩

/-- Value of a key of a record that is a dictionary. -/
def objGet : JsonVal → String → Option JsonVal
  | .obj kvs, k => dictGet kvs k
  | _, _ => none

/-- A default record: its resolved uuid (for its own field and kind) is
the empty string. -/
def defaultRecord (facets : List (String × JsonVal)) (f : JsonVal) : Prop :=
  ∃ cat ty, objGet f "field" = some cat ∧ objGet f "type" = some (.str ty) ∧
    get_facet_field_uuid cat ty facets = .ok (.str "")

/-- A keyed record of the uuid map: its key equals (by value) its resolved
non-empty uuid. -/
def keyedRecord (facets : List (String × JsonVal)) (p : JsonVal × JsonVal) : Prop :=
  ∃ cat ty u2, objGet p.2 "field" = some cat ∧ objGet p.2 "type" = some (.str ty) ∧
    get_facet_field_uuid cat ty facets = .ok u2 ∧ p.1.beq u2 = true ∧ u2.eqStr "" = false

/-- The collection phase invariant: every keyed record is keyed by its
resolved non-empty uuid, every default record resolved to the empty
string. -/
def NInv (facets : List (String × JsonVal)) (st : NState) : Prop :=
  (∀ p ∈ st.1, keyedRecord facets p) ∧ (∀ f ∈ st.2, defaultRecord facets f)

theorem classify_inv (facets : List (String × JsonVal)) (uuid facet : JsonVal)
    (st st2 : NState) (cat : JsonVal) (ty : String)
    (hres : get_facet_field_uuid cat ty facets = .ok uuid)
    (hfield : objGet facet "field" = some cat)
    (htype : objGet facet "type" = some (.str ty))
    (hcl : classify uuid facet st = .ok st2) (hinv : NInv facets st) : NInv facets st2 := by
  unfold classify at hcl
  by_cases he : uuid.eqStr "" = true
  · rw [if_pos he] at hcl
    have h2 : (st.1, st.2 ++ [facet]) = st2 := by
      injection hcl
    subst h2
    refine ⟨hinv.1, ?_⟩
    intro f hf
    rcases List.mem_append.mp hf with h1 | h1
    · exact hinv.2 f h1
    · simp at h1
      subst h1
      exact ⟨cat, ty, hfield, htype, by rw [← eqStr_empty_eq he]; exact hres⟩
  · rw [if_neg he] at hcl
    cases hh : uuid.hashable with
    | false => rw [hh] at hcl; simp at hcl
    | true =>
      rw [hh] at hcl
      simp only [if_true] at hcl
      have h2 : (jsonSet st.1 uuid facet, st.2) = st2 := by
        injection hcl
      subst h2
      refine ⟨?_, hinv.2⟩
      intro p hp
      rcases mem_jsonSet st.1 uuid facet p hp with h1 | h1
      · exact hinv.1 p h1
      · exact ⟨cat, ty, uuid, h1.1 ▸ hfield, h1.1 ▸ htype, hres, h1.2,
               by simpa using he⟩

theorem foldlM_inv {σ α : Type} (P : σ → Prop) (step : σ → α → Except PyErr σ)
    (hstep : ∀ s a s2, step s a = .ok s2 → P s → P s2) :
    ∀ (l : List α) (s s2 : σ), l.foldlM step s = .ok s2 → P s → P s2 := by
  intro l
  induction l with
  | nil =>
    intro s s2 h hp
    simp only [List.foldlM, pure, Except.pure, Except.ok.injEq] at h
    subst h
    exact hp
  | cons a rest ih =>
    intro s s2 h hp
    rw [List.foldlM_cons] at h
    obtain ⟨s1, h1, h2⟩ := except_bind_eq_ok.mp h
    exact ih s1 s2 h2 (hstep s a s1 h1 hp)

theorem fieldStep_inv (facets : List (String × JsonVal)) (ffval : JsonVal)
    (st : NState) (cat : JsonVal) (st2 : NState)
    (h : fieldStep facets ffval st cat = .ok st2) (hinv : NInv facets st) :
    NInv facets st2 := by
  unfold fieldStep at h
  obtain ⟨label, hl, h⟩ := except_bind_eq_ok.mp h
  obtain ⟨counts, hc, h⟩ := except_bind_eq_ok.mp h
  obtain ⟨uuid, hu, h⟩ := except_bind_eq_ok.mp h
  exact classify_inv facets uuid
    (JsonVal.obj [("field", cat), ("type", .str "field"), ("label", label),
                  ("counts", counts)]) st st2 cat "field" hu rfl rfl h hinv

theorem rangeStep_inv (facets : List (String × JsonVal)) (frval : JsonVal)
    (st : NState) (cat : JsonVal) (st2 : NState)
    (h : rangeStep facets frval st cat = .ok st2) (hinv : NInv facets st) :
    NInv facets st2 := by
  unfold rangeStep at h
  obtain ⟨label, hl, h⟩ := except_bind_eq_ok.mp h
  obtain ⟨catv, hcv, h⟩ := except_bind_eq_ok.mp h
  obtain ⟨counts, hc, h⟩ := except_bind_eq_ok.mp h
  obtain ⟨s, hs, h⟩ := except_bind_eq_ok.mp h
  obtain ⟨e, he, h⟩ := except_bind_eq_ok.mp h
  obtain ⟨g, hg, h⟩ := except_bind_eq_ok.mp h
  obtain ⟨uuid, hu, h⟩ := except_bind_eq_ok.mp h
  exact classify_inv facets uuid
    (JsonVal.obj [("field", cat), ("type", .str "range"), ("label", label),
                  ("counts", counts), ("start", s), ("end", e), ("gap", g)])
    st st2 cat "range" hu rfl rfl h hinv

theorem dateStep_inv (facets : List (String × JsonVal)) (fdval : JsonVal)
    (st : NState) (cat : JsonVal) (st2 : NState)
    (h : dateStep facets fdval st cat = .ok st2) (hinv : NInv facets st) :
    NInv facets st2 := by
  unfold dateStep at h
  obtain ⟨label, hl, h⟩ := except_bind_eq_ok.mp h
  obtain ⟨catv, hcv, h⟩ := except_bind_eq_ok.mp h
  obtain ⟨s, hs, h⟩ := except_bind_eq_ok.mp h
  obtain ⟨e, he, h⟩ := except_bind_eq_ok.mp h
  obtain ⟨g, hg, h⟩ := except_bind_eq_ok.mp h
  obtain ⟨items, hi, h⟩ := except_bind_eq_ok.mp h
  obtain ⟨uuid, hu, h⟩ := except_bind_eq_ok.mp h
  exact classify_inv facets uuid
    (JsonVal.obj [("field", cat), ("type", .str "date"), ("label", label),
                  ("start", s), ("end", e), ("gap", g),
                  ("counts", .arr (dateCounts items))]) st st2 cat "date" hu rfl rfl h hinv

theorem catBlock_inv (facets : List (String × JsonVal))
    (step : NState → JsonVal → Except PyErr NState) (v : JsonVal) (st st2 : NState)
    (hstep : ∀ s a s2, step s a = .ok s2 → NInv facets s → NInv facets s2)
    (h : catBlock step v st = .ok st2) (hinv : NInv facets st) : NInv facets st2 := by
  unfold catBlock at h
  by_cases ht : v.truthy = true
  · rw [if_pos ht] at h
    obtain ⟨cats, hcats, h⟩ := except_bind_eq_ok.mp h
    exact foldlM_inv (NInv facets) step hstep cats st st2 h hinv
  · rw [if_neg ht] at h
    have h2 : st = st2 := by
      simpa [pure, Except.pure] using h
    subst h2
    exact hinv

theorem collect_inv (augmented facets : List (String × JsonVal)) (st : NState)
    (h : collectFacets augmented facets = .ok st) : NInv facets st := by
  unfold collectFacets at h
  obtain ⟨fc, hfc, h⟩ := except_bind_eq_ok.mp h
  obtain ⟨ffval, hff, h⟩ := except_bind_eq_ok.mp h
  obtain ⟨st1, h1, h⟩ := except_bind_eq_ok.mp h
  obtain ⟨frval, hfr, h⟩ := except_bind_eq_ok.mp h
  obtain ⟨stb, h2, h⟩ := except_bind_eq_ok.mp h
  obtain ⟨fdval, hfd, h⟩ := except_bind_eq_ok.mp h
  obtain ⟨stc, h3, h⟩ := except_bind_eq_ok.mp h
  have hfin : stc = st := by
    simpa [pure, Except.pure] using h
  rw [← hfin]
  have i0 : NInv facets (([], []) : NState) := by
    constructor <;> intro x hx <;> simp at hx
  have i1 := catBlock_inv facets (fieldStep facets ffval) ffval ([], []) st1
    (fun s a s2 hs hi => fieldStep_inv facets ffval s a s2 hs hi) h1 i0
  have i2 := catBlock_inv facets (rangeStep facets frval) frval st1 stb
    (fun s a s2 hs hi => rangeStep_inv facets frval s a s2 hs hi) h2 i1
  exact catBlock_inv facets (dateStep facets fdval) fdval stb stc
    (fun s a s2 hs hi => dateStep_inv facets fdval s a s2 hs hi) h3 i2

theorem pyGet_dictSet_ne (d : List (String × JsonVal)) (k k2 : String) (v : JsonVal)
    (h : k ≠ k2) : pyGet (dictSet d k v) k2 = pyGet d k2 := by
  unfold pyGet
  rw [dictGet_dictSet, if_neg h]

theorem filterMap_lookup_nil (us : List JsonVal) :
    us.filterMap (fun u => jsonLookup ([] : NMap) u) = [] := by
  induction us with
  | nil => rfl
  | cons u rest ih => simp [jsonLookup, List.find?, ih]

theorem getRangeParams_missing_field (o : List (String × JsonVal)) (rest : List JsonVal)
    (hmiss : dictGet o "field" = none) :
    getRangeParams (JsonVal.obj o :: rest) = .error (.keyError "field") := by
  unfold getRangeParams
  simp [asObj, pySub, hmiss]

/-- Claim C7 as amended: a range facet entry lacking the field key makes
the builder fail with a KeyError naming the missing key, rather than
silently coercing to a default or emitting wrong parameters; the raised
error does not carry the entry index or kind. -/
theorem facet_params_missing_field_keyerror (pr o : List (String × JsonVal))
    (rest : List JsonVal) (hmiss : dictGet o "field" = none) :
    Facet.get_query_params
      [("properties", .obj pr), ("ranges", .arr (JsonVal.obj o :: rest))] =
      .error (.keyError "field") := by
  have e1 : asObj (pyGet
      [("properties", JsonVal.obj pr), ("ranges", .arr (JsonVal.obj o :: rest))]
      "properties") = .ok pr := rfl
  have e2 : (pyGet [("properties", JsonVal.obj pr),
      ("ranges", .arr (JsonVal.obj o :: rest))] "fields").truthy = false := rfl
  have e3 : (pyGet [("properties", JsonVal.obj pr),
      ("ranges", .arr (JsonVal.obj o :: rest))] "ranges").truthy = true := rfl
  have e4 : pyIter (pyGet [("properties", JsonVal.obj pr),
      ("ranges", .arr (JsonVal.obj o :: rest))] "ranges") =
      .ok (JsonVal.obj o :: rest) := rfl
  unfold Facet.get_query_params
  rw [e1]
  simp [e2, e3, e4, getRangeParams_missing_field o rest hmiss]

/-- Witness for claim C7: a concrete range entry with start, end and gap
but no field fails with KeyError field. -/
theorem facet_params_missing_field_keyerror_witness :
    Facet.get_query_params
      [("properties", .obj []),
       ("ranges", .arr [JsonVal.obj [("start", .num 1), ("end", .num 2), ("gap", .num 3)]])] =
      .error (.keyError "field") :=
  facet_params_missing_field_keyerror []
    [("start", .num 1), ("end", .num 2), ("gap", .num 3)] [] rfl

/-- Counterexample to claim C7 as stated: the error raised for a missing
field key is the same KeyError whether the offending entry is a range
entry at index 0 or a date entry at index 1, so the error identifies
neither the entry index nor its kind, and no ConfigValidationError
exists. -/
theorem facet_params_keyerror_position_blind :
    Facet.get_query_params
      [("properties", .obj []),
       ("ranges", .arr [JsonVal.obj [("start", .num 1), ("end", .num 2), ("gap", .num 3)]])] =
      .error (.keyError "field") ∧
    Facet.get_query_params
      [("properties", .obj []),
       ("dates", .arr [JsonVal.obj [("field", .str "ok"),
          ("start", .obj [("frequency", .num 1), ("unit", .str "DAYS")]),
          ("end", .obj [("frequency", .num 1), ("unit", .str "DAYS")]),
          ("gap", .obj [("frequency", .num 1), ("unit", .str "DAYS")])],
         JsonVal.obj [("start", .num 1), ("end", .num 2), ("gap", .num 3)]])] =
      .error (.keyError "field") ∧
    Facet.get_query_params
      [("properties", .obj []),
       ("ranges", .arr [JsonVal.obj [("start", .num 1), ("end", .num 2), ("gap", .num 3)]])] =
    Facet.get_query_params
      [("properties", .obj []),
       ("dates", .arr [JsonVal.obj [("field", .str "ok"),
          ("start", .obj [("frequency", .num 1), ("unit", .str "DAYS")]),
          ("end", .obj [("frequency", .num 1), ("unit", .str "DAYS")]),
          ("gap", .obj [("frequency", .num 1), ("unit", .str "DAYS")])],
         JsonVal.obj [("start", .num 1), ("end", .num 2), ("gap", .num 3)]])] :=
  ⟨rfl, rfl, rfl⟩

/-- Counterexample to claim C3 as stated: a response whose truthy
facet_counts mapping lacks the facet_fields sub-key makes normalization
raise a KeyError instead of returning empty normalized facets. -/
theorem augment_missing_subkey_raises :
    augment_solr_response
      [("facet_counts", .obj [("facet_ranges", .obj [("r", .num 1)])])] [] =
      .error (.keyError "facet_fields") := rfl

/-- Claim C3 as amended: a response with no facet_counts key, or a falsy
facet_counts value, yields the response with normalized_facets set to the
empty list and does not raise (given an iterable configured order); a
truthy facet_counts missing an expected sub-key raises instead. -/
theorem augment_empty_without_facet_counts (response facets : List (String × JsonVal))
    (us : List JsonVal)
    (hfc : (pyGet response "facet_counts").truthy = false)
    (hord : pyIter (dictGetD facets "order" (.arr [])) = .ok us) :
    augment_solr_response response facets =
      .ok (dictSet response "normalized_facets" (.arr [])) := by
  have hpg : pyGet (dictSet response "normalized_facets" (.arr [])) "facet_counts" =
      pyGet response "facet_counts" :=
    pyGet_dictSet_ne response "normalized_facets" "facet_counts" (.arr []) (by decide)
  simp only [augment_solr_response]
  rw [hpg, hfc]
  simp [hord, pure, Except.pure, filterMap_lookup_nil, dictSet_dictSet]

/-- Witness for claim C3: a response without facet_counts is returned
augmented with empty normalized facets. -/
theorem augment_empty_without_facet_counts_witness :
    augment_solr_response [("x", .num 1)] [] =
      .ok (dictSet [("x", .num 1)] "normalized_facets" (.arr [])) :=
  augment_empty_without_facet_counts [("x", .num 1)] [] [] rfl rfl

/-- Claim C10: whenever normalization returns, the result is the input
response with the normalized_facets key set to a list, and the value of
every other top-level key is unchanged (none added, removed or
modified). -/
theorem augment_top_level_frame (response facets out : List (String × JsonVal))
    (h : augment_solr_response response facets = .ok out) :
    (∃ l, dictGet out "normalized_facets" = some (JsonVal.arr l)) ∧
    (∀ k, k ≠ "normalized_facets" → dictGet out k = dictGet response k) := by
  simp only [augment_solr_response] at h
  split at h
  all_goals
    obtain ⟨st, hst, h⟩ := except_bind_eq_ok.mp h
    obtain ⟨us, hus, h⟩ := except_bind_eq_ok.mp h
    have hout : dictSet (dictSet response "normalized_facets" (.arr []))
        "normalized_facets"
        (.arr (us.filterMap (fun u => jsonLookup st.1 u) ++ st.2)) = out := by
      simpa [pure, Except.pure] using h
    rw [← hout, dictSet_dictSet]
    exact ⟨⟨_, by rw [dictGet_dictSet, if_pos rfl]⟩,
           fun k hk => by rw [dictGet_dictSet, if_neg (Ne.symm hk)]⟩

/-- Witness for claim C10: a concrete response with one key is returned
with normalized_facets added and the original key untouched. -/
theorem augment_top_level_frame_witness :
    (∃ l, dictGet (dictSet [("a", JsonVal.num 1)] "normalized_facets" (.arr []))
        "normalized_facets" = some (JsonVal.arr l)) ∧
    (∀ k, k ≠ "normalized_facets" →
       dictGet (dictSet [("a", JsonVal.num 1)] "normalized_facets" (.arr [])) k =
       dictGet [("a", JsonVal.num 1)] k) :=
  augment_top_level_frame [("a", .num 1)] []
    (dictSet [("a", .num 1)] "normalized_facets" (.arr [])) rfl

/-- Claim C2: the final normalized_facets sequence is, for each uuid of
the configured order in document order, the collected record keyed by
that uuid when one exists (uuids without a record silently skipped),
followed by all default records in discovery order; every keyed record is
keyed by its own resolved non-empty uuid, and every default record
resolved to the empty uuid. -/
theorem augment_normalized_facets_assembly (response facets : List (String × JsonVal))
    (st : NState) (us : List JsonVal)
    (hcol : collectFacets (dictSet response "normalized_facets" (.arr [])) facets = .ok st)
    (hcond : (pyGet response "facet_counts").truthy = true)
    (hord : pyIter (dictGetD facets "order" (.arr [])) = .ok us) :
    augment_solr_response response facets =
      .ok (dictSet response "normalized_facets"
        (.arr (us.filterMap (fun u => jsonLookup st.1 u) ++ st.2))) ∧
    (∀ p ∈ st.1, keyedRecord facets p) ∧
    (∀ f ∈ st.2, defaultRecord facets f) := by
  have hpg : pyGet (dictSet response "normalized_facets" (.arr [])) "facet_counts" =
      pyGet response "facet_counts" :=
    pyGet_dictSet_ne response "normalized_facets" "facet_counts" (.arr []) (by decide)
  have hinv := collect_inv (dictSet response "normalized_facets" (.arr [])) facets st hcol
  have hne := dictSet_ne_nil response "normalized_facets" (JsonVal.arr [])
  refine ⟨?_, hinv.1, hinv.2⟩
  simp only [augment_solr_response]
  rw [hpg, hcond, hne]
  simp [hcol, hord, pure, Except.pure, dictSet_dictSet]

/-- Witness for claim C2: a concrete response with one configured facet
and one default facet is assembled in order followed by the default. -/
theorem augment_normalized_facets_assembly_witness :
    augment_solr_response
      [("facet_counts", .obj [("facet_fields",
          .obj [("a", .arr [.str "x", .num 3]), ("f3", .arr [])]),
        ("facet_ranges", .obj []), ("facet_dates", .obj [])])]
      [("fields", .arr [.obj [("field", .str "a"), ("label", .str "LA"),
          ("uuid", .str "u1")]]),
       ("ranges", .arr []), ("dates", .arr []), ("order", .arr [.str "u1"])] =
      .ok (dictSet
        [("facet_counts", .obj [("facet_fields",
            .obj [("a", .arr [.str "x", .num 3]), ("f3", .arr [])]),
          ("facet_ranges", .obj []), ("facet_dates", .obj [])])]
        "normalized_facets"
        (.arr (([JsonVal.str "u1"].filterMap (fun u => jsonLookup
           (([(JsonVal.str "u1",
               JsonVal.obj [("field", .str "a"), ("type", .str "field"),
                            ("label", .str "LA"),
                            ("counts", .arr [.str "x", .num 3])])],
             [JsonVal.obj [("field", .str "f3"), ("type", .str "field"),
                           ("label", .str "f3"), ("counts", .arr [])]]) : NState).1 u)) ++
          (([(JsonVal.str "u1",
               JsonVal.obj [("field", .str "a"), ("type", .str "field"),
                            ("label", .str "LA"),
                            ("counts", .arr [.str "x", .num 3])])],
             [JsonVal.obj [("field", .str "f3"), ("type", .str "field"),
                           ("label", .str "f3"), ("counts", .arr [])]]) : NState).2))) ∧
    (∀ p ∈ (([(JsonVal.str "u1",
               JsonVal.obj [("field", .str "a"), ("type", .str "field"),
                            ("label", .str "LA"),
                            ("counts", .arr [.str "x", .num 3])])],
             [JsonVal.obj [("field", .str "f3"), ("type", .str "field"),
                           ("label", .str "f3"), ("counts", .arr [])]]) : NState).1,
       keyedRecord [("fields", .arr [.obj [("field", .str "a"), ("label", .str "LA"),
          ("uuid", .str "u1")]]),
         ("ranges", .arr []), ("dates", .arr []), ("order", .arr [.str "u1"])] p) ∧
    (∀ f ∈ (([(JsonVal.str "u1",
               JsonVal.obj [("field", .str "a"), ("type", .str "field"),
                            ("label", .str "LA"),
                            ("counts", .arr [.str "x", .num 3])])],
             [JsonVal.obj [("field", .str "f3"), ("type", .str "field"),
                           ("label", .str "f3"), ("counts", .arr [])]]) : NState).2,
       defaultRecord [("fields", .arr [.obj [("field", .str "a"), ("label", .str "LA"),
          ("uuid", .str "u1")]]),
         ("ranges", .arr []), ("dates", .arr []), ("order", .arr [.str "u1"])] f) :=
  augment_normalized_facets_assembly
    [("facet_counts", .obj [("facet_fields",
        .obj [("a", .arr [.str "x", .num 3]), ("f3", .arr [])]),
      ("facet_ranges", .obj []), ("facet_dates", .obj [])])]
    [("fields", .arr [.obj [("field", .str "a"), ("label", .str "LA"),
        ("uuid", .str "u1")]]),
     ("ranges", .arr []), ("dates", .arr []), ("order", .arr [.str "u1"])]
    ([(JsonVal.str "u1",
       JsonVal.obj [("field", .str "a"), ("type", .str "field"),
                    ("label", .str "LA"), ("counts", .arr [.str "x", .num 3])])],
     [JsonVal.obj [("field", .str "f3"), ("type", .str "field"),
                   ("label", .str "f3"), ("counts", .arr [])]])
    [.str "u1"] rfl rfl rfl
